import Mathlib

/-!
Verification of the readable-stream core (readable.js + transform.js).

Chunks are modelled as lists of opaque units (`List α`); a chunk's size is its
list length.  The per-stream `ReadableState` record is embedded as `RState`,
and the engine's operations (`read`, the `onread` producer-reply callback,
`Transform.prototype._output`, the transform `done` finalizer, `pipe`/`unpipe`
bookkeeping, the `flow` loop, and the `wrap` read override) are embedded as
pure state-passing functions.  Emitted events are returned explicitly as lists
of `Ev`; the `process.nextTick`-scheduled `'end'` emission in `read` is
recorded as an `Ev.endEv` event of that call.
-/

namespace ReadableStream

/-- Total size of a chunk queue: the sum of the sizes of its chunks. -/
def sizes (buffer : List (List α)) : Nat :=
  (buffer.map List.length).sum

/-- Modelled from the spec: `fromList` lives in `from-list.js`, which is not
among the sources; the spec treats it as the primitive "consume first n units
from an ordered chunk queue" operation (chunks may be split).  Returns the
consumed units and the remaining queue.  The JS version also receives the
recorded total length, used only as a fast-path hint, which we omit. -/
def fromList : Nat → List (List α) → List α × List (List α)
  | _, [] => ([], [])
  | n, c :: rest =>
    if n = 0 then ([], c :: rest)
    else if c.length ≤ n then
      let p := fromList (n - c.length) rest
      (c ++ p.1, p.2)
    else (c.take n, c.drop n :: rest)

/-- Events a stream operation can emit (or schedule via `process.nextTick`). -/
inductive Ev (α : Type) where
  | endEv : Ev α
  | readable : Ev α
  | error : Ev α
  | dataEv : List α → Ev α
deriving DecidableEq

/-- The `ReadableState` record (readable.js lines 134-154), restricted to the
fields the engine's `read`/`onread` logic touches.  `pipes` and `flowing` are
modelled separately with the pipe/flow algorithm. -/
structure RState (α : Type) where
  bufferSize : Nat
  lowWaterMark : Nat
  buffer : List (List α)
  length : Nat
  ended : Bool
  reading : Bool
  needReadable : Bool
deriving DecidableEq

/-- Result of one `Readable.prototype.read` call: the returned data (`null`
modelled as `none`), the updated state, whether this call issued a producer
pull (`this._read(state.bufferSize, onread)`), and the events emitted or
scheduled during the call. -/
structure ReadResult (α : Type) where
  ret : Option (List α)
  st : RState α
  pull : Bool
  events : List (Ev α)
deriving DecidableEq

namespace Readable

/-- `Readable.prototype.read(n)` (readable.js lines 162-232).  `n?` models the
JS argument: `none` for a missing/NaN argument, `some 0` for a nonpositive
one.  The `process.nextTick(emit 'end')` of the ended-and-empty branch is
recorded as an `Ev.endEv` event. -/
def read (s : RState α) (n? : Option Nat) : ReadResult α :=
  if s.length = 0 ∧ s.ended then
    { ret := none, st := s, pull := false, events := [Ev.endEv] }
  else
    let n0 := match n? with
      | none => s.length
      | some m => if m = 0 then s.length else m
    let step2 :=
      if n0 > s.length then
        if ¬s.ended ∧ s.length < s.lowWaterMark then (0, true)
        else (s.length, s.needReadable)
      else (n0, s.needReadable)
    let n1 := step2.1
    let ret := if n1 > 0 then some (fromList n1 s.buffer).1 else none
    let buf := if n1 > 0 then (fromList n1 s.buffer).2 else s.buffer
    let needR := match ret with
      | none => true
      | some [] => true
      | some (_ :: _) => step2.2
    let len := s.length - n1
    let doPull := ¬s.ended ∧ len < s.lowWaterMark ∧ ¬s.reading
    let st : RState α :=
      { s with buffer := buf, length := len, needReadable := needR,
               reading := if doPull then true else s.reading }
    { ret := ret, st := st, pull := doPull, events := [] }

/-- Result of the `onread` producer-reply callback: updated state, whether a
chained prefetch (`this._read(state.bufferSize, onread.bind(this))`) was
issued, and the events emitted. -/
structure OnreadResult (α : Type) where
  st : RState α
  chained : Bool
  events : List (Ev α)
deriving DecidableEq

/-- The `onread(er, chunk)` callback passed to `_read` (readable.js lines
204-228).  A producer error is `Except.error ()`; "no more data" is
`Except.ok none` or an empty chunk.  Note that the chained prefetch is issued
with `state.reading` already reset to `false`. -/
def onread (s : RState α) (reply : Except Unit (Option (List α))) : OnreadResult α :=
  let s0 : RState α := { s with reading := false }
  match reply with
  | Except.error _ => { st := s0, chained := false, events := [Ev.error] }
  | Except.ok chunk =>
    match chunk with
    | none =>
      { st := { s0 with ended := true }
        chained := false
        events := if s0.length > 0 then [Ev.readable] else [] }
    | some c =>
      if c.length = 0 then
        { st := { s0 with ended := true }
          chained := false
          events := if s0.length > 0 then [Ev.readable] else [] }
      else
        let s1 : RState α :=
          { s0 with length := s0.length + c.length, buffer := s0.buffer ++ [c] }
        let chained := s1.length < s1.lowWaterMark
        if s1.needReadable then
          ({ st := { s1 with needReadable := false }, chained := chained,
             events := [Ev.readable] } : OnreadResult α)
        else
          { st := s1, chained := chained, events := [] }

end Readable

namespace Transform

/-- `Transform.prototype._output(chunk)` (transform.js lines 89-101), the
emit-callback handed to the user's transform step.  A falsy chunk is `none`;
`!chunk.length` is an empty list.  Returns the updated readable-side state and
the emitted events. -/
def output (s : RState α) (chunk : Option (List α)) : RState α × List (Ev α) :=
  match chunk with
  | none => (s, [])
  | some c =>
    if c.length = 0 then (s, [])
    else
      let s1 : RState α := { s with buffer := s.buffer ++ [c], length := s.length + c.length }
      if s1.needReadable then ({ s1 with needReadable := false }, [Ev.readable])
      else (s1, [])

/-- The transform finalizer `done(er)` (transform.js lines 103-121), run after
the writable side finishes (and after the optional `_flush`).  Returns the
updated readable-side state and the emitted events. -/
def doneStep (s : RState α) (er : Option Unit) : RState α × List (Ev α) :=
  match er with
  | some _ => (s, [Ev.error])
  | none =>
    let s1 : RState α := { s with ended := true }
    if s1.length ≠ 0 ∧ s1.needReadable then (s1, [Ev.readable])
    else if s1.length = 0 then (s1, [Ev.endEv])
    else (s1, [])

end Transform

/-- The state visible to `Readable.prototype.wrap`'s closures (readable.js
lines 408-479): the wrapped stream's `ReadableState` fields that the handlers
touch, plus the closure variable `paused`. -/
structure WrapState (α : Type) where
  lowWaterMark : Nat
  buffer : List (List α)
  length : Nat
  ended : Bool
  needReadable : Bool
  paused : Bool
deriving DecidableEq

/-- A JavaScript runtime error surfaced by the embedded code. -/
inductive JsError where
  | referenceError
deriving DecidableEq

instance {ε σ : Type} [DecidableEq ε] [DecidableEq σ] : DecidableEq (Except ε σ) :=
  fun a b =>
    match a, b with
    | Except.error e₁, Except.error e₂ =>
      if h : e₁ = e₂ then isTrue (by rw [h]) else isFalse (by intro hc; cases hc; exact h rfl)
    | Except.ok v₁, Except.ok v₂ =>
      if h : v₁ = v₂ then isTrue (by rw [h]) else isFalse (by intro hc; cases hc; exact h rfl)
    | Except.error _, Except.ok _ => isFalse (by intro hc; cases hc)
    | Except.ok _, Except.error _ => isFalse (by intro hc; cases hc)

namespace Readable

/-- The wrapped source's `'data'` handler (readable.js lines 418-428): buffer
the chunk, emit `'readable'`, and pause the source once the buffered size
exceeds the watermark.  The returned `Bool` records whether `stream.pause()`
was invoked. -/
def wrapOnData (s : WrapState α) (c : List α) : WrapState α × List (Ev α) × Bool :=
  let s1 : WrapState α := { s with buffer := s.buffer ++ [c], length := s.length + c.length }
  if s1.length > s1.lowWaterMark ∧ ¬s1.paused then
    ({ s1 with paused := true }, [Ev.readable], true)
  else (s1, [Ev.readable], false)

/-- The wrapped source's `'end'` handler (readable.js lines 412-416): mark
ended and, if nothing is buffered, emit `'end'` at once. -/
def wrapOnEnd (s : WrapState α) : WrapState α × List (Ev α) :=
  ({ s with ended := true }, if s.length = 0 then [Ev.endEv] else [])

/-- Successful result of the `wrap` read override: returned data, updated
state, and whether `stream.resume()` was invoked. -/
structure WrapReadOk (α : Type) where
  ret : Option (List α)
  st : WrapState α
  resumed : Bool
deriving DecidableEq

/-- The `this.read` override installed by `wrap` (readable.js lines 449-478).
Its final guard reads `state.length === 0 && ended`, where `ended` is an
undeclared identifier (the enclosing scope only defines `state` and `paused`),
so whenever the first conjunct is true the evaluation of `ended` throws a
`ReferenceError` under the file's `'use strict'`; the `process.nextTick(emit
'end')` it guards is unreachable. -/
def wrapRead (s : WrapState α) (n? : Option Nat) : Except JsError (WrapReadOk α) :=
  if s.length = 0 then
    Except.ok { ret := none, st := { s with needReadable := true }, resumed := false }
  else
    let n0 := match n? with
      | none => s.length
      | some m => if m = 0 then s.length else m
    if n0 > s.length ∧ ¬s.ended then
      Except.ok { ret := none, st := { s with needReadable := true }, resumed := false }
    else
      let n1 := if n0 > s.length then s.length else n0
      let p := fromList n1 s.buffer
      let len := s.length - n1
      let resumed := len < s.lowWaterMark ∧ s.paused
      let s1 : WrapState α :=
        { s with buffer := p.2, length := len,
                 paused := if resumed then false else s.paused }
      if len = 0 then Except.error JsError.referenceError
      else Except.ok { ret := some p.1, st := s1, resumed := resumed }

end Readable

/-- A pipe destination: `process.stdout`, `process.stderr`, or any other
writable, identified by a number. -/
inductive Dest where
  | stdout
  | stderr
  | other (id : Nat)
deriving DecidableEq

/-- One entry of `state.pipes`, together with whether the end-propagation
listener (`src.once('end', onend)` with `onend = dest.end()`) is currently
registered for this pipe. -/
structure PipeRec where
  dest : Dest
  endAttached : Bool
deriving DecidableEq

/-- The pipe bookkeeping of one source stream. -/
structure PipeState where
  pipes : List PipeRec
deriving DecidableEq

namespace Readable

/-- The end-propagation guard of `pipe` (readable.js lines 249-251):
`(!pipeOpts || pipeOpts.end !== false) && dest !== process.stdout && dest !==
process.stderr`.  `pipeOpts` is defaulted to `{}` beforehand, so the first
disjunct is never taken; `endOpt = none` models an absent `end` option. -/
def pipeAttachesEnd (endOpt : Option Bool) (dest : Dest) : Bool :=
  if endOpt = some false then false
  else if dest = Dest.stdout then false
  else if dest = Dest.stderr then false
  else true

/-- `Readable.prototype.pipe(dest, pipeOpts)` (readable.js lines 242-270),
restricted to its pipe-set and listener bookkeeping: push the destination and
register the end-propagation listener when the guard allows it. -/
def pipe (s : PipeState) (dest : Dest) (endOpt : Option Bool) : PipeState :=
  { pipes := s.pipes ++ [{ dest := dest, endAttached := pipeAttachesEnd endOpt dest }] }

/-- Remove the first pipe record for `d` (the `indexOf`/`splice` pair of
`unpipe`). -/
def eraseFirstDest : List PipeRec → Dest → List PipeRec
  | [], _ => []
  | r :: rest, d => if r.dest = d then rest else r :: eraseFirstDest rest d

/-- `Readable.prototype.unpipe(dest)` with a specific destination (readable.js
lines 318-334): if `dest` is piped, `dest.emit('unpipe', src)` runs every
unpipe handler that `pipe` registered on `dest` for this source — each removes
its own `onend` end-propagation listener — and the pipe record is spliced
out. -/
def unpipe (s : PipeState) (dest : Dest) : PipeState :=
  if dest ∈ s.pipes.map PipeRec.dest then
    { pipes := eraseFirstDest
        (s.pipes.map fun r =>
          if r.dest = dest then { r with endAttached := false } else r)
        dest }
  else s

end Readable

/-- Accumulated state of the `flow` loop (readable.js lines 272-316), with its
observable trace.  `sinks` is `state.pipes` (ids in registration order);
`delivered` is the trace of `dest.write(chunk)` calls, `dataEvents` the trace
of `'data'` broadcasts; `reads` counts `src.read` calls made by the loop and
`pulls` those that returned a chunk; `drainPending` holds the sinks whose
`write` answered `false` and on which `dest.once('drain', ondrain)` is
registered (the code keeps the equivalent `needDrain` counter); `rearmed`
records `src.once('readable', flow…)`. -/
structure FlowAcc (α : Type) where
  sinks : List Nat
  delivered : List (Nat × α)
  dataEvents : List α
  reads : Nat
  pulls : Nat
  drainPending : List Nat
  rearmed : Bool
  flowing : Bool
deriving DecidableEq

/-- The `flow(src, pipeOpts)` loop (readable.js lines 272-316) over the
chunks the source will yield.  `accept k i` is sink `k`'s `write` answer for
the `i`-th pulled chunk (`false` = backpressure).  Each iteration delivers the
pulled chunk to every sink in registration order, broadcasts it as `'data'`,
and suspends as soon as any sink signaled backpressure; a pull that yields no
chunk stops the loop and re-arms it on `'readable'`. -/
def flow (accept : Nat → Nat → Bool) : List α → FlowAcc α → List α × FlowAcc α
  | chunks, a =>
    if a.sinks = [] then (chunks, { a with flowing := false })
    else
      match chunks with
      | [] => ([], { a with reads := a.reads + 1, rearmed := true })
      | c :: rest =>
        if (a.sinks.filter fun k => !accept k a.pulls) = [] then
          flow accept rest
            { a with delivered := a.delivered ++ a.sinks.map (fun k => (k, c)),
                     dataEvents := a.dataEvents ++ [c],
                     reads := a.reads + 1, pulls := a.pulls + 1,
                     drainPending := [] }
        else
          (rest,
            { a with delivered := a.delivered ++ a.sinks.map (fun k => (k, c)),
                     dataEvents := a.dataEvents ++ [c],
                     reads := a.reads + 1, pulls := a.pulls + 1,
                     drainPending := a.sinks.filter fun k => !accept k a.pulls })

/-- The `ondrain` closure of `flow` (readable.js lines 278-282): a `'drain'`
signal from sink `k` fires its registered once-listener, which decrements the
pending count and restarts `flow` when it reaches zero. -/
def ondrain (accept : Nat → Nat → Bool) (k : Nat) (chunks : List α) (a : FlowAcc α) :
    List α × FlowAcc α :=
  if k ∈ a.drainPending then
    if a.drainPending.erase k = [] then
      flow accept chunks { a with drainPending := [] }
    else (chunks, { a with drainPending := a.drainPending.erase k })
  else (chunks, a)

/-- External events reaching a suspended flow loop. -/
inductive FlowEv where
  | drain (k : Nat)
deriving DecidableEq

/-- Process a sequence of drain events against a flow-loop state. -/
def runFlow (accept : Nat → Nat → Bool) :
    List FlowEv → List α × FlowAcc α → List α × FlowAcc α
  | [], p => p
  | FlowEv.drain k :: evs, p => runFlow accept evs (ondrain accept k p.1 p.2)

/-- The flow-loop state right after `pipe` scheduled the loop. -/
def initAcc (sinks : List Nat) : FlowAcc α :=
  { sinks := sinks, delivered := [], dataEvents := [], reads := 0, pulls := 0,
    drainPending := [], rearmed := false, flowing := true }

/-- The expected delivery trace: each chunk fanned out to every sink in
registration order before the next chunk. -/
def fanout (sinks : List Nat) : List α → List (Nat × α)
  | [] => []
  | c :: cs => sinks.map (fun k => (k, c)) ++ fanout sinks cs

/-- No-skip/no-duplication invariant of a flow run against the original chunk
sequence: the delivery trace is exactly the fan-out of the consumed prefix,
and the unconsumed chunks are exactly the corresponding suffix. -/
def FlowInv (sinks : List Nat) (chunks₀ : List α) (p : List α × FlowAcc α) : Prop :=
  p.2.sinks = sinks ∧
  p.2.delivered = fanout sinks (chunks₀.take p.2.pulls) ∧
  p.1 = chunks₀.drop p.2.pulls

/-- A `once('end', f)` listener: `emitEnd` models one `'end'` emission against
it — the listener fires and is removed the first time, so repeated emissions
invoke `f` (here `dest.end()`) at most once. -/
structure OnceEnd where
  attached : Bool
  endCalls : Nat
deriving DecidableEq

/-- One `'end'` emission against a `once` listener. -/
def emitEnd (l : OnceEnd) : OnceEnd :=
  if l.attached then { attached := false, endCalls := l.endCalls + 1 } else l

/-- `k` successive `'end'` emissions. -/
def emitEndN : Nat → OnceEnd → OnceEnd
  | 0, l => l
  | n + 1, l => emitEndN n (emitEnd l)

/-- One engine operation touching a stream's buffer/size bookkeeping: a
consumer `read` call, a producer reply (the `onread` callback), or a transform
output emission (`_output`). -/
inductive Op (α : Type) where
  | readOp (n? : Option Nat)
  | replyOp (reply : Except Unit (Option (List α)))
  | outputOp (chunk : Option (List α))

/-- Apply one operation to the stream state. -/
def stepOp (s : RState α) : Op α → RState α
  | Op.readOp n? => (Readable.read s n?).st
  | Op.replyOp r => (Readable.onread s r).st
  | Op.outputOp c => (Transform.output s c).1

/-- The recorded total buffered size (`state.length`, the spec's `totalSize`)
matches the chunks actually queued. -/
def lenInv (s : RState α) : Prop :=
  s.length = sizes s.buffer

/-- A stream paired with the number of producer `_read` requests currently in
flight: issued (by `read` or by a chained prefetch) and not yet called
back. -/
structure Driver (α : Type) where
  st : RState α
  outstanding : Nat
deriving DecidableEq

/-- Driver-level operations: a consumer `read` call, or the producer calling
back one outstanding `_read` request. -/
inductive DOp (α : Type) where
  | readOp (n? : Option Nat)
  | replyOp (reply : Except Unit (Option (List α)))

/-- Driver step: `read` adds an outstanding request when it issues a pull;
a producer reply retires one request and adds one back when `onread` chains
another prefetch.  Replies with nothing in flight are ignored. -/
def dstep (d : Driver α) : DOp α → Driver α
  | DOp.readOp n? =>
    let r := Readable.read d.st n?
    { st := r.st, outstanding := d.outstanding + (if r.pull then 1 else 0) }
  | DOp.replyOp rep =>
    if d.outstanding = 0 then d
    else
      let r := Readable.onread d.st rep
      { st := r.st, outstanding := d.outstanding - 1 + (if r.chained then 1 else 0) }

/-- A freshly constructed stream state with the given low-water mark (the
constructor defaults of readable.js lines 134-154). -/
def freshState (lwm : Nat) : RState Unit :=
  { bufferSize := 16384, lowWaterMark := lwm, buffer := [], length := 0,
    ended := false, reading := false, needReadable := false }

/-- A consumer read, a producer reply with a 3-unit chunk (small enough that
`onread` chains another prefetch), then another consumer read. -/
def chainTrace : List (DOp Unit) :=
  [DOp.readOp none, DOp.replyOp (Except.ok (some [(), (), ()])), DOp.readOp none]

/-- A stream holding 200 buffered units with `lowWaterMark = 1024`. -/
def lowBufState : RState Unit :=
  { bufferSize := 16384, lowWaterMark := 1024,
    buffer := [List.replicate 200 ()], length := 200,
    ended := false, reading := false, needReadable := false }

/-- An ended stream with an empty buffer. -/
def endedEmpty : RState Unit :=
  { bufferSize := 16384, lowWaterMark := 1024, buffer := [], length := 0,
    ended := true, reading := false, needReadable := false }

/-- A transform's readable side holding 5 buffered units with no consumer
waiting (`needReadable = false`). -/
def bufferedDone : RState Unit :=
  { bufferSize := 16384, lowWaterMark := 1024,
    buffer := [List.replicate 5 ()], length := 5,
    ended := false, reading := false, needReadable := false }

/-- A wrapped foreign source that delivered one 5-unit chunk and then signaled
its own end, leaving the wrapper's buffer undrained. -/
def wrapDrainedSetup : WrapState Unit :=
  (Readable.wrapOnEnd
    (Readable.wrapOnData
      { lowWaterMark := 1024, buffer := [], length := 0, ended := false,
        needReadable := false, paused := false }
      (List.replicate 5 ())).1).1

-- ===== Helper lemmas =====

theorem sizes_nil : sizes ([] : List (List α)) = 0 := rfl

theorem sizes_cons (c : List α) (rest : List (List α)) :
    sizes (c :: rest) = c.length + sizes rest := rfl

theorem sizes_append (b₁ b₂ : List (List α)) :
    sizes (b₁ ++ b₂) = sizes b₁ + sizes b₂ := by
  induction b₁ with
  | nil => simp [sizes_nil, sizes_cons, sizes]
  | cons c rest ih => simp [sizes_cons, ih, Nat.add_assoc]

theorem flatten_eq_nil_of_sizes_eq_zero (buffer : List (List α))
    (h : sizes buffer = 0) : buffer.flatten = [] := by
  induction buffer with
  | nil => rfl
  | cons c rest ih =>
    rw [sizes_cons] at h
    have hc : c.length = 0 := Nat.eq_zero_of_add_eq_zero_right h
    have hrest : sizes rest = 0 := Nat.eq_zero_of_add_eq_zero_left h
    simp [List.flatten, List.eq_nil_of_length_eq_zero hc, ih hrest]

/-- Taking `n ≤ sizes buffer` units removes exactly `n` units: the taken list
has length `n` and the remainder holds `sizes buffer - n` units. -/
theorem fromList_spec (n : Nat) (buffer : List (List α)) (h : n ≤ sizes buffer) :
    (fromList n buffer).1.length = n ∧
    sizes (fromList n buffer).2 = sizes buffer - n := by
  induction buffer generalizing n with
  | nil =>
    rw [sizes_nil] at h
    simp [fromList, Nat.le_zero.mp h, sizes_nil]
  | cons c rest ih =>
    rw [sizes_cons] at h
    by_cases h0 : n = 0
    · subst h0; simp [fromList, sizes_cons]
    · by_cases hc : c.length ≤ n
      · have hrest : n - c.length ≤ sizes rest := by omega
        have := ih (n - c.length) hrest
        simp only [fromList, if_neg h0, if_pos hc]
        constructor
        · simp [this.1]; omega
        · rw [this.2, sizes_cons]; omega
      · simp only [fromList, if_neg h0, if_neg hc]
        constructor
        · simp; omega
        · rw [sizes_cons, sizes_cons]; simp; omega

/-- Taking everything (`n = sizes buffer`) yields exactly the concatenation of
the queued chunks, in order. -/
theorem fromList_flatten (buffer : List (List α)) (n : Nat) (h : n = sizes buffer) :
    (fromList n buffer).1 = buffer.flatten := by
  induction buffer generalizing n with
  | nil => simp [fromList]
  | cons c rest ih =>
    rw [sizes_cons] at h
    by_cases h0 : n = 0
    · have hc : c.length = 0 := by omega
      have hrest : sizes rest = 0 := by omega
      subst h0
      simp [fromList, List.eq_nil_of_length_eq_zero hc,
        flatten_eq_nil_of_sizes_eq_zero rest hrest]
    · have hc : c.length ≤ n := by omega
      simp only [fromList, if_neg h0, if_pos hc]
      simp [ih (n - c.length) (by omega)]

theorem fanout_append (sinks : List Nat) (l₁ l₂ : List α) :
    fanout sinks (l₁ ++ l₂) = fanout sinks l₁ ++ fanout sinks l₂ := by
  induction l₁ with
  | nil => rfl
  | cons c cs ih => simp [fanout, ih]

theorem take_drop_of_drop_cons {l : List α} {n : Nat} {c : α} {rest : List α}
    (h : l.drop n = c :: rest) :
    l.take (n + 1) = l.take n ++ [c] ∧ l.drop (n + 1) = rest := by
  induction n generalizing l with
  | zero =>
    rw [List.drop_zero] at h
    subst h
    simp
  | succ m ih =>
    cases l with
    | nil => simp at h
    | cons x xs =>
      rw [List.drop_succ_cons] at h
      have := ih h
      simp [List.take_succ_cons, List.drop_succ_cons, this.1, this.2]

theorem flow_inv (accept : Nat → Nat → Bool) {sinks : List Nat} {chunks₀ : List α}
    (chunks : List α) (a : FlowAcc α) (h : FlowInv sinks chunks₀ (chunks, a)) :
    FlowInv sinks chunks₀ (flow accept chunks a) := by
  induction chunks generalizing a with
  | nil =>
    rw [flow]
    split
    · exact h
    · exact ⟨h.1, h.2.1, h.2.2⟩
  | cons c rest ih =>
    rw [flow]
    split
    · exact h
    · have hs : a.sinks = sinks := h.1
      have hd : a.delivered = fanout sinks (chunks₀.take a.pulls) := h.2.1
      have hdrop : chunks₀.drop a.pulls = c :: rest := h.2.2.symm
      have htd := take_drop_of_drop_cons hdrop
      have hdeliv : a.delivered ++ a.sinks.map (fun k => (k, c)) =
          fanout sinks (chunks₀.take (a.pulls + 1)) := by
        rw [htd.1, fanout_append, hd, hs]
        simp [fanout]
      split
      · exact ih _ ⟨hs, hdeliv, htd.2.symm⟩
      · exact ⟨hs, hdeliv, htd.2.symm⟩

/-- The `delivered` trace only grows across a `flow` call. -/
theorem flow_delivered_mono (accept : Nat → Nat → Bool) (chunks : List α)
    (a : FlowAcc α) :
    ∃ t, (flow accept chunks a).2.delivered = a.delivered ++ t := by
  induction chunks generalizing a with
  | nil =>
    rw [flow]
    split
    · exact ⟨[], by simp⟩
    · exact ⟨[], by simp⟩
  | cons c rest ih =>
    rw [flow]
    split
    · exact ⟨[], by simp⟩
    · split
      · obtain ⟨t, ht⟩ := ih
          { a with delivered := a.delivered ++ a.sinks.map (fun k => (k, c)),
                   dataEvents := a.dataEvents ++ [c],
                   reads := a.reads + 1, pulls := a.pulls + 1,
                   drainPending := [] }
        exact ⟨a.sinks.map (fun k => (k, c)) ++ t,
          by rw [ht, List.append_assoc]⟩
      · exact ⟨a.sinks.map (fun k => (k, c)), rfl⟩

theorem ondrain_inv (accept : Nat → Nat → Bool) {sinks : List Nat}
    {chunks₀ : List α} (k : Nat) (chunks : List α) (a : FlowAcc α)
    (h : FlowInv sinks chunks₀ (chunks, a)) :
    FlowInv sinks chunks₀ (ondrain accept k chunks a) := by
  rw [ondrain]
  split
  · split
    · exact flow_inv accept chunks _ ⟨h.1, h.2.1, h.2.2⟩
    · exact ⟨h.1, h.2.1, h.2.2⟩
  · exact h

theorem runFlow_inv (accept : Nat → Nat → Bool) {sinks : List Nat}
    {chunks₀ : List α} (evs : List FlowEv) (p : List α × FlowAcc α)
    (h : FlowInv sinks chunks₀ p) :
    FlowInv sinks chunks₀ (runFlow accept evs p) := by
  induction evs generalizing p with
  | nil => exact h
  | cons e evs ih =>
    cases e with
    | drain k => exact ih _ (ondrain_inv accept k p.1 p.2 ⟨h.1, h.2.1, h.2.2⟩)

/-- With sinks that always accept, the flow loop never suspends: it consumes
every chunk, fans each out to all sinks, and re-arms on `'readable'`. -/
theorem flow_all_accept (accept : Nat → Nat → Bool)
    (hacc : ∀ k i, accept k i = true) (chunks : List α) (a : FlowAcc α)
    (hs : a.sinks ≠ []) (hp : a.drainPending = []) :
    (flow accept chunks a).1 = [] ∧
    (flow accept chunks a).2.delivered = a.delivered ++ fanout a.sinks chunks ∧
    (flow accept chunks a).2.drainPending = [] ∧
    (flow accept chunks a).2.rearmed = true := by
  induction chunks generalizing a with
  | nil =>
    rw [flow]
    split
    · exact absurd (by assumption) hs
    · simp [fanout, hp]
  | cons c rest ih =>
    rw [flow]
    split
    · exact absurd (by assumption) hs
    · have hpend : (a.sinks.filter fun k => !accept k a.pulls) = [] := by
        refine List.filter_eq_nil_iff.mpr ?_
        intro x _
        simp [hacc x a.pulls]
      rw [if_pos hpend]
      have := ih { a with delivered := a.delivered ++ a.sinks.map (fun k => (k, c)),
                          dataEvents := a.dataEvents ++ [c],
                          reads := a.reads + 1, pulls := a.pulls + 1,
                          drainPending := [] }
        hs rfl
      simpa [fanout, List.append_assoc] using this

theorem emitEndN_detached (n : Nat) (c : Nat) :
    emitEndN n { attached := false, endCalls := c } =
      { attached := false, endCalls := c } := by
  induction n with
  | zero => rfl
  | succ m ih => simpa [emitEndN, emitEnd] using ih

theorem lenInv_sub (s : RState α) (h : s.length = sizes s.buffer) (v : Nat)
    (hv : v ≤ s.length) :
    s.length - v = sizes (if v > 0 then (fromList v s.buffer).2 else s.buffer) := by
  by_cases hp : v > 0
  · rw [if_pos hp, (fromList_spec v s.buffer (h ▸ hv)).2, h]
  · rw [if_neg hp]
    omega

theorem lenInv_read (s : RState α) (n? : Option Nat) (h : lenInv s) :
    lenInv (Readable.read s n?).st := by
  unfold lenInv at h ⊢
  rw [Readable.read.eq_def]
  split
  · exact h
  · dsimp only
    apply lenInv_sub s h
    split
    · split
      · exact Nat.zero_le _
      · exact Nat.le_refl _
    · next hng => omega

theorem lenInv_onread (s : RState α) (reply : Except Unit (Option (List α)))
    (h : lenInv s) : lenInv (Readable.onread s reply).st := by
  unfold lenInv at h ⊢
  rw [Readable.onread.eq_def]
  match reply with
  | Except.error _ => exact h
  | Except.ok none => exact h
  | Except.ok (some c) =>
    by_cases hc : c.length = 0
    · simp [hc, h]
    · simp only [if_neg hc]
      split
      · simp [sizes_append, sizes_cons, sizes_nil, h]
      · simp [sizes_append, sizes_cons, sizes_nil, h]

theorem lenInv_output (s : RState α) (chunk : Option (List α)) (h : lenInv s) :
    lenInv (Transform.output s chunk).1 := by
  unfold lenInv at h ⊢
  rw [Transform.output.eq_def]
  match chunk with
  | none => exact h
  | some c =>
    by_cases hc : c.length = 0
    · simp [hc, h]
    · simp only [if_neg hc]
      split
      · simp [sizes_append, sizes_cons, sizes_nil, h]
      · simp [sizes_append, sizes_cons, sizes_nil, h]

/-- Claim C5: for every stream, after any sequence of consumer reads,
producer-reply appends, and transform output emissions, the recorded total
buffered size (`state.length`) equals the sum of the sizes of the chunks in
the queue. -/
theorem totalSize_invariant (s : RState α) (ops : List (Op α)) (h : lenInv s) :
    lenInv (ops.foldl stepOp s) := by
  induction ops generalizing s with
  | nil => exact h
  | cons op rest ih =>
    refine ih _ ?_
    cases op with
    | readOp n? => exact lenInv_read s n? h
    | replyOp r => exact lenInv_onread s r h
    | outputOp c => exact lenInv_output s c h

/-- Witness for C5: a concrete run — a short read, a producer reply, a
transform emission, then a consuming read — keeps `state.length` equal to the
queued sizes. -/
theorem totalSize_invariant_witness :
    lenInv (List.foldl stepOp (freshState 1024)
      [Op.readOp none, Op.replyOp (Except.ok (some [()])),
       Op.outputOp (some [(), ()]), Op.readOp (some 2)]) :=
  totalSize_invariant (freshState 1024)
    [Op.readOp none, Op.replyOp (Except.ok (some [()])),
     Op.outputOp (some [(), ()]), Op.readOp (some 2)] (by unfold lenInv; decide)

/-- Claim C1: refuted on the code.  After `read` issues a pull and the
producer replies with a chunk that leaves the buffer below the watermark,
`onread` issues a chained prefetch without setting `state.reading` back to
`true`: after the reply one `_read` request is outstanding while
`state.reading` is `false`, and a subsequent consumer `read` then issues a
second concurrent pull, so two producer requests are outstanding at once. -/
theorem chained_prefetch_two_pulls :
    (List.foldl dstep { st := freshState 10, outstanding := 0 }
        (chainTrace.take 2)).st.reading = false ∧
    (List.foldl dstep { st := freshState 10, outstanding := 0 }
        (chainTrace.take 2)).outstanding = 1 ∧
    (List.foldl dstep { st := freshState 10, outstanding := 0 }
        chainTrace).outstanding = 2 := by
  decide

/-- Counterexample to claim C6 as stated: on an ended, empty stream each
`read()` call schedules its own `'end'` emission — two consecutive calls
schedule two, not at most one over the stream's lifetime. -/
theorem read_ended_empty_end_twice :
    (Readable.read endedEmpty none).events = [Ev.endEv] ∧
    (Readable.read (Readable.read endedEmpty none).st none).events = [Ev.endEv] ∧
    ((Readable.read endedEmpty none).events ++
        (Readable.read (Readable.read endedEmpty none).st none).events).count
      Ev.endEv = 2 := by
  decide

/-- Claim C6, amended: `read()` on an ended, empty stream returns no data,
leaves the state unchanged, issues no pull, and schedules one end-of-data
notification per call (so `k` such calls schedule `k` notifications, not at
most one ever). -/
theorem read_ended_empty_schedules_end (s : RState α) (n? : Option Nat)
    (h0 : s.length = 0) (he : s.ended = true) :
    Readable.read s n? =
      { ret := none, st := s, pull := false, events := [Ev.endEv] } := by
  rw [Readable.read.eq_def, if_pos ⟨h0, he⟩]

/-- Witness for the amended C6 at a concrete ended, empty stream. -/
theorem read_ended_empty_schedules_end_witness :
    Readable.read endedEmpty none =
      { ret := none, st := endedEmpty, pull := false, events := [Ev.endEv] } :=
  read_ended_empty_schedules_end endedEmpty none rfl rfl

/-- Claim C7: refuted on the code.  A wrapped source delivers one 5-unit
chunk and signals end; the consumer's `read(5)` drains the buffer, and the
override's final guard `state.length === 0 && ended` evaluates the undeclared
identifier `ended`, throwing a `ReferenceError` instead of scheduling the
local end-of-data notification. -/
theorem wrap_drain_read_referenceError :
    wrapDrainedSetup.ended = true ∧ wrapDrainedSetup.length = 5 ∧
    Readable.wrapRead wrapDrainedSetup (some 5) =
      Except.error JsError.referenceError := by
  decide

/-- Counterexample to claim C8 as stated: with output remaining buffered
(`length = 5`) but no consumer waiting (`needReadable = false`), the
finalizer emits no notification at all, though the claim says an availability
notification is raised whenever output remains buffered. -/
theorem done_buffered_not_waiting_silent :
    bufferedDone.length ≠ 0 ∧
    (Transform.doneStep bufferedDone none).2 = [] := by
  decide

/-- Claim C8, amended: when the done-callback received an error, an error is
raised instead of normal completion; otherwise the output side is marked
ended, and then end-of-data is raised immediately if nothing is buffered,
availability is raised if output remains buffered and a consumer is waiting,
and nothing is raised if output remains buffered with no consumer waiting. -/
theorem done_finalize (s : RState α) :
    (∀ e : Unit, Transform.doneStep s (some e) = (s, [Ev.error])) ∧
    (Transform.doneStep s none).1 = { s with ended := true } ∧
    (s.length = 0 → (Transform.doneStep s none).2 = [Ev.endEv]) ∧
    (s.length ≠ 0 → s.needReadable = true →
      (Transform.doneStep s none).2 = [Ev.readable]) ∧
    (s.length ≠ 0 → s.needReadable = false →
      (Transform.doneStep s none).2 = []) := by
  refine ⟨fun e => rfl, ?_, ?_, ?_, ?_⟩
  · rw [Transform.doneStep.eq_def]
    dsimp only
    split
    · rfl
    · split
      · rfl
      · rfl
  · intro h0
    rw [Transform.doneStep.eq_def]
    dsimp only
    rw [if_neg (by simp [h0]), if_pos h0]
  · intro h0 hw
    rw [Transform.doneStep.eq_def]
    dsimp only
    rw [if_pos ⟨h0, hw⟩]
  · intro h0 hw
    rw [Transform.doneStep.eq_def]
    dsimp only
    rw [if_neg (by simp [hw]), if_neg h0]

/-- Witness for the amended C8 at concrete states: an errored finalize raises
an error; a finalize with empty output raises end-of-data; one with buffered
output and no waiting consumer raises nothing. -/
theorem done_finalize_witness :
    Transform.doneStep endedEmpty (some ()) = (endedEmpty, [Ev.error]) ∧
    (Transform.doneStep (freshState 1024) none).2 = [Ev.endEv] ∧
    (Transform.doneStep bufferedDone none).2 = [] :=
  ⟨(done_finalize endedEmpty).1 (),
   (done_finalize (freshState 1024)).2.2.1 rfl,
   (done_finalize bufferedDone).2.2.2.2 (by decide) rfl⟩

/-- Claim C9: invoking a Transform's emit-callback with a falsy chunk or a
zero-length chunk is a no-op — the state (buffer, recorded size, waiting
flag) is unchanged and no notification is raised. -/
theorem output_falsy_noop (s : RState α) (chunk : Option (List α))
    (h : chunk = none ∨ chunk = some []) :
    Transform.output s chunk = (s, []) := by
  rcases h with rfl | rfl <;> simp [Transform.output]

/-- Witness for C9: a falsy chunk at a concrete buffered state. -/
theorem output_falsy_noop_witness :
    Transform.output bufferedDone none = (bufferedDone, []) ∧
    Transform.output bufferedDone (some []) = (bufferedDone, []) :=
  ⟨output_falsy_noop bufferedDone none (Or.inl rfl),
   output_falsy_noop bufferedDone (some []) (Or.inr rfl)⟩

/-- Claim C2: on a stream with no pull outstanding, a `read(n)` with `n`
exceeding the buffered size defers when the stream is not ended and the
buffered size is below the watermark — it returns no data, marks that a
consumer is waiting, consumes nothing, and issues exactly one producer pull;
otherwise (already ended, or buffered size at/above the watermark) it returns
everything currently buffered. -/
theorem read_watermark_policy (s : RState α) (n : Nat)
    (hn : n > s.length) (hInv : lenInv s) :
    (s.ended = false → s.reading = false → s.length < s.lowWaterMark →
      Readable.read s (some n) =
        { ret := none, st := { s with needReadable := true, reading := true },
          pull := true, events := [] }) ∧
    ((s.ended = true ∨ s.lowWaterMark ≤ s.length) →
      (Readable.read s (some n)).ret.getD [] = s.buffer.flatten ∧
      (Readable.read s (some n)).st.length = 0) := by
  unfold lenInv at hInv
  have hn0 : ¬n = 0 := by omega
  constructor
  · intro he hr hl
    have h1 : ¬(s.length = 0 ∧ s.ended = true) := by simp [he]
    rw [Readable.read.eq_def, if_neg h1]
    dsimp only
    rw [if_neg hn0]
    rw [if_pos (show n > s.length from hn)]
    rw [if_pos (show ¬s.ended = true ∧ s.length < s.lowWaterMark from ⟨by simp [he], hl⟩)]
    dsimp only
    rw [if_neg (by omega : ¬(0 : Nat) > 0)]
    rw [if_pos (show ¬s.ended = true ∧ s.length - 0 < s.lowWaterMark ∧ ¬s.reading = true
      by simp [he, hr]; omega)]
    simp [hr, he, hl]
  · intro hcase
    by_cases h1 : s.length = 0 ∧ s.ended = true
    · rw [Readable.read.eq_def, if_pos h1]
      refine ⟨?_, h1.1⟩
      exact (flatten_eq_nil_of_sizes_eq_zero s.buffer (by omega)).symm
    · rw [Readable.read.eq_def, if_neg h1]
      dsimp only
      rw [if_neg hn0]
      rw [if_pos (show n > s.length from hn)]
      rw [if_neg (show ¬(¬s.ended = true ∧ s.length < s.lowWaterMark) by
        rcases hcase with h | h
        · simp [h]
        · rintro ⟨_, hlt⟩; omega)]
      dsimp only
      by_cases hz : s.length > 0
      · rw [if_pos hz]
        refine ⟨?_, by omega⟩
        exact fromList_flatten s.buffer s.length hInv
      · rw [if_neg hz]
        refine ⟨?_, by omega⟩
        exact (flatten_eq_nil_of_sizes_eq_zero s.buffer (by omega)).symm

set_option maxRecDepth 4000 in
/-- Witness for C2, the spec's scenario: buffered = 200 units, `lowWaterMark
= 1024`, not ended, no pull outstanding; `read(1000)` returns no data, marks
waiting, consumes nothing, and issues exactly one pull. -/
theorem read_watermark_policy_witness :
    Readable.read lowBufState (some 1000) =
      { ret := none,
        st := { lowBufState with needReadable := true, reading := true },
        pull := true, events := [] } :=
  (read_watermark_policy lowBufState 1000 (by decide)
    (by unfold lenInv; decide)).1 rfl rfl (by decide)

/-- Claim C3: once any sink's delivery answers with backpressure, the flow
loop issues no further pulls until every backpressured sink has individually
signaled release (a partial release changes nothing but the pending set); the
next chunk is delivered only after the last release (resuming runs `flow`,
which first fans the next chunk out to every sink); and across any run with
any drain schedule the delivery trace equals the fan-out of the pulled prefix
— no chunk skipped or delivered twice to any sink. -/
theorem flow_backpressure_protocol (α : Type) (accept : Nat → Nat → Bool) :
    (∀ (chunks : List α) (a : FlowAcc α) (k : Nat),
      k ∈ a.drainPending → a.drainPending.erase k ≠ [] →
      ondrain accept k chunks a =
        (chunks, { a with drainPending := a.drainPending.erase k })) ∧
    (∀ (chunks : List α) (a : FlowAcc α) (k : Nat),
      a.drainPending = [k] →
      ondrain accept k chunks a = flow accept chunks { a with drainPending := [] }) ∧
    (∀ (c : α) (rest : List α) (a : FlowAcc α) (k : Nat),
      a.drainPending = [k] → a.sinks ≠ [] →
      ∃ t, (ondrain accept k (c :: rest) a).2.delivered =
        a.delivered ++ a.sinks.map (fun j => (j, c)) ++ t) ∧
    (∀ (sinks : List Nat) (chunks₀ : List α) (evs : List FlowEv),
      FlowInv sinks chunks₀ (runFlow accept evs (flow accept chunks₀ (initAcc sinks)))) := by
  have hres : ∀ (chunks : List α) (a : FlowAcc α) (k : Nat),
      a.drainPending = [k] →
      ondrain accept k chunks a = flow accept chunks { a with drainPending := [] } := by
    intro chunks a k hp
    rw [ondrain, if_pos (by simp [hp]), if_pos (by simp [hp])]
  refine ⟨?_, hres, ?_, ?_⟩
  · intro chunks a k hk hne
    rw [ondrain, if_pos hk, if_neg hne]
  · intro c rest a k hp hs
    rw [hres (c :: rest) a k hp, flow]
    rw [if_neg (show ¬(FlowAcc.mk a.sinks a.delivered a.dataEvents a.reads a.pulls
      ([] : List Nat) a.rearmed a.flowing).sinks = [] from hs)]
    split
    · obtain ⟨t, ht⟩ := flow_delivered_mono accept rest
        { a with delivered := a.delivered ++ a.sinks.map (fun j => (j, c)),
                 dataEvents := a.dataEvents ++ [c],
                 reads := a.reads + 1, pulls := a.pulls + 1,
                 drainPending := [] }
      exact ⟨t, by simpa [List.append_assoc] using ht⟩
    · exact ⟨[], by simp⟩
  · intro sinks chunks₀ evs
    refine runFlow_inv accept evs _ (flow_inv accept chunks₀ (initAcc sinks) ?_)
    exact ⟨rfl, rfl, rfl⟩

/-- Witness for C3 at concrete inputs: with both sinks backpressured, a
release from sink 1 alone only shrinks the pending set (no pull, no
delivery); when sink 2 is the sole pending sink its release resumes the loop,
which delivers the next chunk to both sinks; and a full run over a concrete
drain schedule satisfies the no-skip/no-duplication invariant. -/
theorem flow_backpressure_protocol_witness :
    ondrain (fun _ _ => false) 1 [((), ())]
        { initAcc [1, 2] with drainPending := [1, 2] } =
      ([((), ())], { initAcc [1, 2] with drainPending := [2] }) ∧
    (ondrain (fun k i => !(k = 2 && i = 0)) 2 [((), ())]
        { initAcc [1, 2] with drainPending := [2] }).2.delivered =
      [(1, ((), ())), (2, ((), ()))] ∧
    FlowInv [1, 2] [0, 1]
      (runFlow (fun _ i => !(i = 0)) [FlowEv.drain 1, FlowEv.drain 2]
        (flow (fun _ i => !(i = 0)) [0, 1] (initAcc [1, 2]))) := by
  refine ⟨?_, ?_, ?_⟩
  · exact (flow_backpressure_protocol (Unit × Unit) (fun _ _ => false)).1
      [((), ())] { initAcc [1, 2] with drainPending := [1, 2] } 1
      (by decide) (by decide)
  · rw [(flow_backpressure_protocol (Unit × Unit)
      (fun k i => !(k = 2 && i = 0))).2.1 [((), ())]
      { initAcc [1, 2] with drainPending := [2] } 2 rfl]
    decide
  · exact (flow_backpressure_protocol Nat (fun _ i => !(i = 0))).2.2.2 [1, 2] [0, 1]
      [FlowEv.drain 1, FlowEv.drain 2]

/-- Claim C4: piping a finite source into sinks that always accept delivers
every chunk to every registered sink in registration order, each chunk fully
fanned out before the next is pulled, and the source is fully consumed; with
the `end` option not suppressed the end-propagation listener is attached for
an ordinary destination, and however many times the `'end'` notification
fires (at least once), the sink's `end()` is called exactly once through its
`once` listener. -/
theorem pipe_finite_source_delivery (α : Type) (chunks : List α)
    (sinks : List Nat) (accept : Nat → Nat → Bool)
    (hs : sinks ≠ []) (hacc : ∀ k i, accept k i = true) :
    (flow accept chunks (initAcc sinks)).2.delivered = fanout sinks chunks ∧
    (flow accept chunks (initAcc sinks)).1 = [] ∧
    (∀ (i : Nat) (endOpt : Option Bool), endOpt ≠ some false →
      Readable.pipeAttachesEnd endOpt (Dest.other i) = true) ∧
    (∀ k, 1 ≤ k →
      (emitEndN k { attached := true, endCalls := 0 }).endCalls = 1) := by
  have hall := flow_all_accept accept hacc chunks (initAcc sinks) hs rfl
  refine ⟨?_, hall.1, ?_, ?_⟩
  · rw [hall.2.1]
    rfl
  · intro i endOpt h
    rw [Readable.pipeAttachesEnd, if_neg h, if_neg (by simp), if_neg (by simp)]
  · intro k hk
    match k, hk with
    | m + 1, _ =>
      show (emitEndN m (emitEnd { attached := true, endCalls := 0 })).endCalls = 1
      rw [show emitEnd { attached := true, endCalls := 0 } =
        { attached := false, endCalls := 1 } from rfl, emitEndN_detached]

/-- Witness for C4: the spec's 50-chunk scenario with one always-accepting
sink — all 50 chunks are delivered in order, the source is drained, the end
listener is attached for an ordinary destination under the default `end`
option, and three scheduled `'end'` emissions still call `end()` once. -/
theorem pipe_finite_source_delivery_witness :
    (flow (fun _ _ => true) (List.range 50) (initAcc [7])).2.delivered =
      fanout [7] (List.range 50) ∧
    Readable.pipeAttachesEnd none (Dest.other 0) = true ∧
    (emitEndN 3 { attached := true, endCalls := 0 }).endCalls = 1 :=
  ⟨(pipe_finite_source_delivery Nat (List.range 50) [7] (fun _ _ => true)
      (by decide) (fun _ _ => rfl)).1,
   (pipe_finite_source_delivery Nat [] [7] (fun _ _ => true)
      (by decide) (fun _ _ => rfl)).2.2.1 0 none (by decide),
   (pipe_finite_source_delivery Nat [] [7] (fun _ _ => true)
      (by decide) (fun _ _ => rfl)).2.2.2 3 (by decide)⟩

theorem pipeRec_clear_of_not_mem (l : List PipeRec) (d : Dest)
    (h : d ∉ l.map PipeRec.dest) :
    (l.map fun r => if r.dest = d then { r with endAttached := false } else r) = l := by
  induction l with
  | nil => rfl
  | cons r rest ih =>
    simp only [List.map_cons, List.mem_cons] at h
    push_neg at h
    rw [List.map_cons, if_neg (fun hc => h.1 hc.symm), ih h.2]

theorem eraseFirstDest_append_of_not_mem (l : List PipeRec) (d : Dest)
    (r : PipeRec) (h : d ∉ l.map PipeRec.dest) (hr : r.dest = d) :
    Readable.eraseFirstDest (l ++ [r]) d = l := by
  induction l with
  | nil => simp [Readable.eraseFirstDest, hr]
  | cons x rest ih =>
    simp only [List.map_cons, List.mem_cons] at h
    push_neg at h
    rw [List.cons_append, Readable.eraseFirstDest,
      if_neg (fun hc => h.1 hc.symm), ih h.2]

/-- Claim C10: `pipe(dest)` never attaches the end-propagation listener when
the destination is `process.stdout` or `process.stderr`, whatever the `end`
option; for any other destination with `end` not set to `false` the listener
is attached, and unpiping that destination removes both the pipe record and
the listener. -/
theorem pipe_end_propagation :
    (∀ (s : PipeState) (endOpt : Option Bool),
      Readable.pipe s Dest.stdout endOpt =
        { pipes := s.pipes ++ [{ dest := Dest.stdout, endAttached := false }] } ∧
      Readable.pipe s Dest.stderr endOpt =
        { pipes := s.pipes ++ [{ dest := Dest.stderr, endAttached := false }] }) ∧
    (∀ (s : PipeState) (endOpt : Option Bool) (i : Nat),
      endOpt ≠ some false →
      Readable.pipe s (Dest.other i) endOpt =
        { pipes := s.pipes ++ [{ dest := Dest.other i, endAttached := true }] }) ∧
    (∀ (s : PipeState) (endOpt : Option Bool) (i : Nat),
      endOpt ≠ some false → Dest.other i ∉ s.pipes.map PipeRec.dest →
      Readable.unpipe (Readable.pipe s (Dest.other i) endOpt) (Dest.other i) = s) := by
  have hstd : ∀ (endOpt : Option Bool),
      Readable.pipeAttachesEnd endOpt Dest.stdout = false := by
    intro endOpt
    rw [Readable.pipeAttachesEnd]
    split
    · rfl
    · rw [if_pos rfl]
  have herr : ∀ (endOpt : Option Bool),
      Readable.pipeAttachesEnd endOpt Dest.stderr = false := by
    intro endOpt
    rw [Readable.pipeAttachesEnd]
    split
    · rfl
    · rw [if_neg (by simp), if_pos rfl]
  have hoth : ∀ (endOpt : Option Bool) (i : Nat), endOpt ≠ some false →
      Readable.pipeAttachesEnd endOpt (Dest.other i) = true := by
    intro endOpt i h
    rw [Readable.pipeAttachesEnd, if_neg h, if_neg (by simp), if_neg (by simp)]
  refine ⟨fun s endOpt => ⟨?_, ?_⟩, fun s endOpt i h => ?_, fun s endOpt i h hm => ?_⟩
  · rw [Readable.pipe, hstd]
  · rw [Readable.pipe, herr]
  · rw [Readable.pipe, hoth endOpt i h]
  · rw [Readable.pipe, hoth endOpt i h, Readable.unpipe]
    rw [if_pos (by simp)]
    rw [List.map_append, pipeRec_clear_of_not_mem s.pipes (Dest.other i) hm]
    rw [show (List.map (fun r =>
        if r.dest = Dest.other i then { r with endAttached := false } else r)
        [({ dest := Dest.other i, endAttached := true } : PipeRec)]) =
      [({ dest := Dest.other i, endAttached := false } : PipeRec)] by simp]
    rw [eraseFirstDest_append_of_not_mem s.pipes (Dest.other i) _ hm rfl]

/-- Witness for C10: piping to `stdout` under the default `end` option
attaches no end listener; piping to another destination does, and unpiping it
restores the original pipe state. -/
theorem pipe_end_propagation_witness :
    Readable.pipe { pipes := [] } Dest.stdout none =
      { pipes := [{ dest := Dest.stdout, endAttached := false }] } ∧
    Readable.pipe { pipes := [] } (Dest.other 3) none =
      { pipes := [{ dest := Dest.other 3, endAttached := true }] } ∧
    Readable.unpipe (Readable.pipe { pipes := [] } (Dest.other 3) none)
      (Dest.other 3) = { pipes := [] } :=
  ⟨(pipe_end_propagation.1 { pipes := [] } none).1,
   pipe_end_propagation.2.1 { pipes := [] } none 3 (by decide),
   pipe_end_propagation.2.2 { pipes := [] } none 3 (by decide) (by decide)⟩

end ReadableStream
